import Mathlib

/-!
Verification development for the static-site renderer in `.render/render.js`.

The file shallowly embeds the pure core of the renderer: Node's POSIX path
arithmetic (`path.join`, `path.resolve`, `path.relative`, `path.dirname`,
`path.basename`, normalization), the output-path resolver
`computeOutputHtmlPath`, the link/asset rewriter `rebaseAssetSrcPaths`
(modelled per attribute value), heading-id assignment `addHeadingIds`
(modelled on the list of heading texts), title/description resolution from
`renderPage`, the navigation builder `buildNavItems` / `buildNavHtml`, and
config loading `loadConfig`.  JavaScript dynamic values are modelled by the
inductive type `JVal`; thrown errors by `Except String`.

Paths are plain strings; all path functions below are hand translations of
the corresponding Node `path.posix` routines restricted to the forward-slash
separator used throughout the renderer.  `process.cwd()` is modelled as the
fixed absolute directory `/repo`.
-/

namespace Render

/-! ### Character-level splitting utilities -/

/-- Split a character list on the separator `/`, keeping empty chunks,
exactly like JavaScript `"…".split("/")`. -/
def chSplit : List Char → List (List Char)
  | [] => [[]]
  | c :: cs =>
    let r := chSplit cs
    if c = '/' then [] :: r
    else (c :: r.headD []) :: r.tail

/-- Join character chunks with the separator `/` (inverse of `chSplit`). -/
def chJoin : List (List Char) → List Char
  | [] => []
  | [x] => x
  | x :: xs => x ++ '/' :: chJoin xs

/-- Split a character list at the first occurrence of `c`:
returns the part before it and, when found, the part after it.
This models JavaScript `indexOf` followed by the two `slice` calls. -/
def splitAtChar (c : Char) : List Char → List Char × Option (List Char)
  | [] => ([], none)
  | x :: xs =>
    if x = c then ([], some xs)
    else
      let r := splitAtChar c xs
      (x :: r.1, r.2)

/-! ### String-level path segments -/

/-- Split a path string into its `/`-separated segments (empty segments are
kept, as in JavaScript `split`). -/
def splitSegs (s : String) : List String :=
  (chSplit s.data).map String.mk

/-- Join segments with `/` (JavaScript `Array.prototype.join("/")`). -/
def joinSegs : List String → String
  | [] => ""
  | [x] => x
  | x :: xs => x ++ "/" ++ joinSegs xs

/-- First character test, as Node does with `charCodeAt(0)`. -/
def strHeadIs (s : String) (c : Char) : Bool :=
  s.data.head? = some c

/-- Last character test, as Node does with `charCodeAt(len - 1)`. -/
def strLastIs (s : String) (c : Char) : Bool :=
  s.data.getLast? = some c

/-! ### Node `path.posix` model

Hand translations of the routines from Node's `path.posix` used by
`render.js`.  `normStep` and `normSegs` model `normalizeString` (the shared
segment normalizer: drops empty and `.` segments, resolves `..` against the
accumulated prefix, keeping leading `..` only when `allowAboveRoot`). -/

/-- One step of Node's `normalizeString`, processing segment `seg` against the
accumulator `acc` (held in reverse order). -/
def normStep (allow : Bool) (acc : List String) (seg : String) : List String :=
  if seg = "" ∨ seg = "." then acc
  else if seg = ".." then
    match acc with
    | [] => if allow then [".."] else []
    | a :: rest => if a = ".." then ".." :: a :: rest else rest
  else seg :: acc

/-- Node `normalizeString` at the segment level: normalize a list of raw
segments; `allow` is `allowAboveRoot` (true for relative paths). -/
def normSegs (allow : Bool) (segs : List String) : List String :=
  (segs.foldl (normStep allow) []).reverse

/-- Node `path.posix.normalize`. -/
def posixNormalize (s : String) : String :=
  if s = "" then "."
  else
    let isAbs := strHeadIs s '/'
    let trailing := strLastIs s '/'
    let core := joinSegs (normSegs (!isAbs) (splitSegs s))
    if core = "" then
      if isAbs then "/" else if trailing then "./" else "."
    else
      let core := if trailing then core ++ "/" else core
      if isAbs then "/" ++ core else core

/-- Node `path.posix.join`: drop empty arguments, join the rest with `/`,
normalize; an all-empty argument list yields the current directory. -/
def posixJoinList (parts : List String) : String :=
  let nonempty := parts.filter (· ≠ "")
  if nonempty = [] then "." else posixNormalize (joinSegs nonempty)

/-- Two-argument `path.join`, the form used throughout `render.js`. -/
def posixJoin2 (a b : String) : String := posixJoinList [a, b]

/-- Node `path.posix.resolve(base, p)` in the situation that holds at every
call site in `render.js`: `base` is an absolute directory (a descendant of
`process.cwd()`).  If `p` is absolute it wins outright; an empty `p` is
skipped; otherwise `p` is stacked on `base`.  The result is normalized with
`allowAboveRoot = false` and re-rooted at `/`. -/
def posixResolveAbs (base p : String) : String :=
  let resolved := if strHeadIs p '/' then p else if p = "" then base else base ++ "/" ++ p
  let core := joinSegs (normSegs false (splitSegs resolved))
  if core = "" then "/" else "/" ++ core

/-- Length of the common segment prefix of two segment lists. -/
def commonPrefixLen : List String → List String → Nat
  | a :: as, b :: bs => if a = b then commonPrefixLen as bs + 1 else 0
  | _, _ => 0

/-- Node `path.posix.relative(f, t)` for absolute `f` and `t` (the only way
`render.js` calls it): climb out of the non-shared part of `f` with `..`
segments, then descend into the non-shared part of `t`. -/
def posixRelative (f t : String) : String :=
  let fs := normSegs false (splitSegs f)
  let ts := normSegs false (splitSegs t)
  let c := commonPrefixLen fs ts
  joinSegs (List.replicate (fs.length - c) ".." ++ ts.drop c)

/-- Drop trailing empty segments (Node's scan that skips trailing slashes). -/
def dropTrailingEmpty (segs : List String) : List String :=
  (segs.reverse.dropWhile (· = "")).reverse

/-- Node `path.posix.dirname`.  (Node's irregular double-slash root `//` is
not distinguished from `/` here; no renderer path has a `//` root.) -/
def posixDirname (p : String) : String :=
  let core := dropTrailingEmpty (splitSegs p)
  let start := core.dropLast
  if start = [] then (if strHeadIs p '/' then "/" else ".")
  else if start.all (· = "") then "/"
  else joinSegs start

/-- Node `path.posix.basename` (one-argument form): the last non-empty
segment, or the empty string when there is none. -/
def posixBasename (p : String) : String :=
  ((splitSegs p).reverse.find? (fun s => s ≠ "")).getD ""

/-- A well-formed path segment: non-empty, not a dot segment, and free of
the separator.  Repository-relative content-file paths decompose into such
segments. -/
def cleanSeg (s : String) : Bool :=
  s ≠ "" && s ≠ "." && s ≠ ".." && !(s.data.contains '/')

/-! ### JavaScript primitives used by `render.js` -/

/-- JavaScript `\w` (word character) for ASCII input. -/
def isJsWordChar (c : Char) : Bool :=
  ('a' ≤ c && c ≤ 'z') || ('A' ≤ c && c ≤ 'Z') || ('0' ≤ c && c ≤ '9') || c = '_'

/-- JavaScript `\s` restricted to the ASCII whitespace characters. -/
def isJsSpace (c : Char) : Bool :=
  c = ' ' || c = '\t' || c = '\n' || c = '\r' || c = '\x0B' || c = '\x0C'

/-- JavaScript `toLowerCase` for the ASCII range. -/
def jsToLower (s : String) : String :=
  String.mk (s.data.map Char.toLower)

/-- JavaScript `trim`: drop leading and trailing whitespace. -/
def jsTrim (s : String) : String :=
  String.mk (((s.data.dropWhile isJsSpace).reverse.dropWhile isJsSpace).reverse)

/-- Prefix test on the underlying characters (JavaScript `startsWith`). -/
def strStartsWith (s pre : String) : Bool :=
  pre.data.isPrefixOf s.data

/-- Suffix test on the underlying characters (JavaScript `endsWith`). -/
def strEndsWith (s suf : String) : Bool :=
  suf.data.isSuffixOf s.data

/-- Expansion of one character under `escapeHtml`'s replacement map. -/
def escapeHtmlChar (c : Char) : List Char :=
  if c = '&' then "&amp;".data
  else if c = '<' then "&lt;".data
  else if c = '>' then "&gt;".data
  else if c = '"' then "&quot;".data
  else if c = '\'' then "&#039;".data
  else [c]

/-- The renderer's `escapeHtml` helper: replace HTML-special characters. -/
def escapeHtml (s : String) : String :=
  String.mk (s.data.map escapeHtmlChar).flatten

/-- Characters whose percent-escapes `decodeURI` leaves intact. -/
def uriReservedSet : List Char :=
  [';', '/', '?', ':', '@', '&', '=', '+', '$', ',', '#']

/-- Value of a hexadecimal digit character, if it is one. -/
def hexDigitVal (c : Char) : Option Nat :=
  if '0' ≤ c ∧ c ≤ '9' then some (c.toNat - 48)
  else if 'a' ≤ c ∧ c ≤ 'f' then some (c.toNat - 87)
  else if 'A' ≤ c ∧ c ≤ 'F' then some (c.toNat - 55)
  else none

/-- Read the two hexadecimal digits following a `%`, returning the byte
value together with the original digit characters (needed because reserved
escapes are re-emitted verbatim, case included); `none` models a
`URIError`. -/
def readEscByte : List Char → Option (Nat × Char × Char × List Char)
  | a :: b :: rest =>
    match hexDigitVal a, hexDigitVal b with
    | some x, some y => some (16 * x + y, a, b, rest)
    | _, _ => none
  | _ => none

/-- Read one UTF-8 continuation escape: a literal `%` followed by two hex
digits whose byte value lies in `[0x80, 0xC0)`; anything else models a
`URIError`. -/
def readContByte : List Char → Option (Nat × List Char)
  | '%' :: rest =>
    match readEscByte rest with
    | some (v, _, _, rest2) => if 0x80 ≤ v ∧ v < 0xC0 then some (v, rest2) else none
    | _ => none
  | _ => none

/-- JavaScript builtin `decodeURI`, the ECMA-262 `Decode` operation with the
`decodeURI` preserve set: a single-byte escape decodes to its character
unless that character is URI-reserved, in which case the original three
characters are kept verbatim; a lead byte with two to four leading one bits
must be followed by the matching number of continuation escapes forming a
valid UTF-8 code point (no overlong forms, no surrogates, at most
`0x10FFFF`), which is decoded; every other escape shape throws `URIError`,
modelled as `none`.  Structurally recursive on a fuel bound; each step
consumes at least one character, so fuel above the input length makes the
zero-fuel arm unreachable. -/
def decodeURIFuel : Nat → List Char → Option (List Char)
  | 0, _ => none
  | _, [] => some []
  | fuel + 1, c :: rest =>
    if c = '%' then
      match readEscByte rest with
      | none => none
      | some (b, a1, a2, rest2) =>
        if b < 0x80 then
          match decodeURIFuel fuel rest2 with
          | none => none
          | some tail =>
            some (if uriReservedSet.contains (Char.ofNat b)
                  then '%' :: a1 :: a2 :: tail
                  else Char.ofNat b :: tail)
        else if b < 0xC0 then none
        else if b < 0xE0 then
          match readContByte rest2 with
          | none => none
          | some (b1, rest3) =>
            let v := (b - 0xC0) * 0x40 + (b1 - 0x80)
            if v < 0x80 then none
            else
              match decodeURIFuel fuel rest3 with
              | none => none
              | some tail => some (Char.ofNat v :: tail)
        else if b < 0xF0 then
          match readContByte rest2 with
          | none => none
          | some (b1, rest3) =>
            match readContByte rest3 with
            | none => none
            | some (b2, rest4) =>
              let v := (b - 0xE0) * 0x1000 + (b1 - 0x80) * 0x40 + (b2 - 0x80)
              if v < 0x800 ∨ (0xD800 ≤ v ∧ v ≤ 0xDFFF) then none
              else
                match decodeURIFuel fuel rest4 with
                | none => none
                | some tail => some (Char.ofNat v :: tail)
        else if b < 0xF8 then
          match readContByte rest2 with
          | none => none
          | some (b1, rest3) =>
            match readContByte rest3 with
            | none => none
            | some (b2, rest4) =>
              match readContByte rest4 with
              | none => none
              | some (b3, rest5) =>
                let v := (b - 0xF0) * 0x40000 + (b1 - 0x80) * 0x1000
                  + (b2 - 0x80) * 0x40 + (b3 - 0x80)
                if v < 0x10000 ∨ 0x10FFFF < v then none
                else
                  match decodeURIFuel fuel rest5 with
                  | none => none
                  | some tail => some (Char.ofNat v :: tail)
        else none
    else
      match decodeURIFuel fuel rest with
      | none => none
      | some tail => some (c :: tail)

/-- String form of `decodeURI`; `none` models a thrown `URIError`. -/
def decodeURI (s : String) : Option String :=
  (decodeURIFuel (s.data.length + 1) s.data).map String.mk

/-- Decimal digits of `n`, structurally recursive on a fuel bound; any fuel
above `n` gives the digits (the zero-fuel arm is unreachable then). -/
def natToDecFuel : Nat → Nat → List Char
  | 0, _ => []
  | fuel + 1, n =>
    if n < 10 then [Char.ofNat (48 + n)]
    else natToDecFuel fuel (n / 10) ++ [Char.ofNat (48 + n % 10)]

/-- Decimal rendering of a natural number (JavaScript number-to-string for
the non-negative integers produced by the renderer's counters). -/
def natToDec (n : Nat) : String :=
  String.mk (natToDecFuel (n + 1) n)

/-- Test for the regex `^(https?:)?\/\/` with the `i` flag: protocol-relative
or absolute http(s) references. -/
def isExternalUrl (s : String) : Bool :=
  let l := jsToLower s
  strStartsWith l "//" || strStartsWith l "http://" || strStartsWith l "https://"

/-- Test for the regex `^(mailto:|tel:)` with the `i` flag. -/
def isMailtoTel (s : String) : Bool :=
  let l := jsToLower s
  strStartsWith l "mailto:" || strStartsWith l "tel:"

/-- Test for the regex `\.md$` with the `i` flag. -/
def isMdHref (s : String) : Bool :=
  strEndsWith (jsToLower s) ".md"

/-- Replacement `replace(/\.md$/i, "")`: strip a trailing `.md` extension. -/
def stripMdExt (s : String) : String :=
  if isMdHref s then String.mk (s.data.take (s.data.length - 3)) else s

/-! ### Output-path resolution (`computeOutputHtmlPath`) -/

/-- The repository root.  In `render.js` this is `process.cwd()`; it is
modelled as a fixed absolute directory. -/
def REPO_ROOT : String := "/repo"

/-- The output root `path.join(REPO_ROOT, "_site")`. -/
def OUTPUT_ROOT : String := posixJoin2 REPO_ROOT "_site"

/-- Translation of `computeOutputHtmlPath(mdPath, homeMdBasename)`: map a
source markdown path to its output HTML file path by the ordered rules of
the source (home/README at root, 404 at root, `index.md`, everything else
becomes `dir/name/index.html`). -/
def computeOutputHtmlPath (mdPath homeMdBasename : String) : String :=
  let rel := posixRelative REPO_ROOT mdPath
  let base := posixBasename rel
  let dir := posixDirname rel
  if dir = "." ∧ (base = homeMdBasename ∨ base = "README.md") then
    posixJoin2 OUTPUT_ROOT "index.html"
  else if dir = "." ∧ base = "404.md" then
    posixJoin2 OUTPUT_ROOT "404.html"
  else if base = "index.md" then
    posixJoinList [OUTPUT_ROOT, dir, "index.html"]
  else
    let name := stripMdExt base
    posixJoinList [OUTPUT_ROOT, if dir = "." then name else posixJoin2 dir name, "index.html"]

/-! ### Link and asset rewriting (`rebaseAssetSrcPaths`)

The DOM walk selects `a[href], img[src], video[src], audio[src],
source[src], link[href], script[src]` and rewrites one attribute value per
element; the per-value transform is modelled below.  `isHref` is the
source's `el.hasAttribute("href")` test used both to pick the attribute and
to decide whether to rebase. -/

/-- Element kinds matched by the rewriter's selector. -/
inductive RefEl
  | a
  | img
  | video
  | audio
  | source
  | link
  | script
deriving DecidableEq

/-- Which selected elements carry their reference in an `href` attribute
(the source computes this as `el.hasAttribute("href")`). -/
def elUsesHref : RefEl → Bool
  | .a => true
  | .link => true
  | _ => false

/-- Split a raw attribute value into path, query (with its leading `?`) and
fragment (without its leading `#`) components, exactly as the source does
with `indexOf`/`slice`: first split at the first `#`, then split the front
part at the first `?`. -/
def splitRef (raw : String) : String × String × String :=
  let hashSplit := splitAtChar '#' raw.data
  let anchorPart := hashSplit.2.getD []
  let querySplit := splitAtChar '?' hashSplit.1
  let queryPart : List Char :=
    match querySplit.2 with
    | some r => '?' :: r
    | none => []
  (String.mk querySplit.1, String.mk queryPart, String.mk anchorPart)

/-- The raw hash portion of a reference value: the `#` and everything after
it when a `#` occurs, empty otherwise (used to state that the authored
value is exactly path, query and hash reassembled). -/
def refHashRaw (raw : String) : String :=
  match (splitAtChar '#' raw.data).2 with
  | some r => "#" ++ String.mk r
  | none => ""

/-- Per-value body of `rebaseAssetSrcPaths`: classify and possibly rewrite
one attribute value.  Early returns (empty, external, `mailto:`/`tel:`,
pure anchor) leave the value untouched.  Otherwise the value is split into
components; `src` values get their decoded path component rebased through
resolve/relative/join/relative, `href` values keep it as authored; the
query and fragment are reattached, and an empty `href` result becomes `.`.
The `decodeURI` call at the rebase step has no handler in `render.js`, so
a `URIError` (modelled `none`) propagates and aborts the build with the
value unrewritten.  The source's `.split(path.sep).join("/")` is the
identity on POSIX. -/
def rewriteAttrValue (isHref : Bool) (raw sourceDir currentDir : String) : Option String :=
  if raw = "" then some raw
  else if isExternalUrl raw then some raw
  else if isMailtoTel raw then some raw
  else if strStartsWith raw "#" then some raw
  else
    let parts := splitRef raw
    let pathPart0 := parts.1
    let queryPart := parts.2.1
    let anchorPart := parts.2.2
    let rebased :=
      if isHref then some pathPart0
      else
        match decodeURI pathPart0 with
        | none => none
        | some decoded =>
          let assetAbs := posixResolveAbs sourceDir decoded
          let assetRelFromRepo := posixRelative REPO_ROOT assetAbs
          let assetOutPath := posixJoin2 OUTPUT_ROOT assetRelFromRepo
          some (posixRelative currentDir assetOutPath)
    match rebased with
    | none => none
    | some pathPart =>
      let hash := if anchorPart = "" then "" else "#" ++ anchorPart
      let newValue := pathPart ++ queryPart ++ hash
      some (if newValue = "" ∧ isHref then "." else newValue)

/-- Rewriting of one selected element's reference attribute, including the
function-level `path.dirname` computations of `rebaseAssetSrcPaths`;
`none` models the unhandled `URIError` aborting the build. -/
def rebaseAssetRef (el : RefEl) (raw sourceMdPath currentOutPath : String) : Option String :=
  rewriteAttrValue (elUsesHref el) raw (posixDirname sourceMdPath) (posixDirname currentOutPath)

/-! ### Heading-id assignment (`addHeadingIds`)

The DOM walk visits `h1`–`h6` elements in document order; the model works
on the list of their text contents.  The run-collapsing replacements are
structurally recursive on a fuel bound; fuel at least the list length makes
the zero-fuel arm unreachable. -/

/-- Skip to just past the first `>`, if any (tail of one `<[^>]*>` match). -/
def dropTag : List Char → Option (List Char)
  | [] => none
  | c :: rest => if c = '>' then some rest else dropTag rest

/-- Replacement of every tag span (the global regex that removes each
maximal `<…>` region); a `<` with no subsequent `>` is kept verbatim, since
the regex cannot match from it. -/
def stripTagsFuel : Nat → List Char → List Char
  | 0, _ => []
  | _, [] => []
  | fuel + 1, c :: rest =>
    if c = '<' then
      match dropTag rest with
      | some r => stripTagsFuel fuel r
      | none => c :: rest
    else c :: stripTagsFuel fuel rest

/-- Replacement collapsing every whitespace run into one hyphen. -/
def collapseWsFuel : Nat → List Char → List Char
  | 0, _ => []
  | _, [] => []
  | fuel + 1, c :: rest =>
    if isJsSpace c then '-' :: collapseWsFuel fuel (rest.dropWhile isJsSpace)
    else c :: collapseWsFuel fuel rest

/-- Replacement collapsing every hyphen run into a single hyphen (the last
step of `slugify`). -/
def collapseDashFuel : Nat → List Char → List Char
  | 0, _ => []
  | _, [] => []
  | fuel + 1, c :: rest =>
    if c = '-' then '-' :: collapseDashFuel fuel (rest.dropWhile (· = '-'))
    else c :: collapseDashFuel fuel rest

/-- The `slugify` helper of `addHeadingIds`: lowercase, strip tags, trim,
strip characters outside `[\w\s-]`, collapse whitespace to hyphens,
collapse hyphen runs. -/
def slugify (text : String) : String :=
  let s1 := jsToLower text
  let s2 := String.mk (stripTagsFuel s1.data.length s1.data)
  let s3 := jsTrim s2
  let s4 := String.mk (s3.data.filter (fun c => isJsWordChar c || isJsSpace c || c = '-'))
  let s5 := String.mk (collapseWsFuel s4.data.length s4.data)
  String.mk (collapseDashFuel s5.data.length s5.data)

/-- The id-collision loop: start from `base` and append `-1`, `-2`, … until
the candidate is unused.  An empty `base` exits the loop immediately with
the empty id (the loop condition tests the id's truthiness).  The candidate
list of length `used.length + 2` always contains a free candidate, so the
fallback arm is unreachable. -/
def freshId (base : String) (used : List String) : String :=
  if base = "" then ""
  else
    match (base :: (List.range (used.length + 1)).map
        (fun i => base ++ "-" ++ natToDec (i + 1))).find? (fun c => !used.contains c) with
    | some c => c
    | none => ""

/-- The heading loop of `addHeadingIds` over heading texts, carrying the
`used` set (modelled as the list of previously assigned ids): a heading
whose computed id is empty gets no id attribute. -/
def assignHeadingIdsGo (used : List String) : List String → List (Option String)
  | [] => []
  | t :: ts =>
    let id := freshId (slugify t) used
    if id = "" then none :: assignHeadingIdsGo used ts
    else some id :: assignHeadingIdsGo (id :: used) ts

/-- Ids assigned by `addHeadingIds` to a document's headings, in order. -/
def assignHeadingIds (texts : List String) : List (Option String) :=
  assignHeadingIdsGo [] texts

/-! ### Title extraction (`parseFirstH1`, `renderPage`) -/

/-- Dynamic JavaScript values as far as the renderer inspects them. -/
inductive JVal
  | str (s : String)
  | num (n : Int)
  | jbool (b : Bool)
  | jnull
  | undefinedV
  | obj (fields : List (String × JVal))
  | arr (elems : List JVal)

/-- JavaScript truthiness of a modelled value. -/
def jsTruthy : JVal → Bool
  | .str s => s ≠ ""
  | .num n => n ≠ 0
  | .jbool b => b
  | .jnull => false
  | .undefinedV => false
  | .obj _ => true
  | .arr _ => true

/-- Whether `typeof v` is the string `"object"` (true for `null` and
arrays, as in JavaScript). -/
def jsTypeofObject : JVal → Bool
  | .obj _ => true
  | .arr _ => true
  | .jnull => true
  | _ => false

/-- Property access `v[k]`, yielding `undefined` when absent.  Object keys
are looked up in insertion order (they are unique in a JavaScript object);
array elements answer to their decimal index. -/
def getField : JVal → String → JVal
  | .obj fields, k =>
    match fields.find? (fun f => f.1 = k) with
    | some f => f.2
    | none => .undefinedV
  | .arr es, k =>
    match (List.range es.length).find? (fun i => natToDec i = k) with
    | some i => es.getD i .undefinedV
    | none => .undefinedV
  | _, _ => .undefinedV

/-- First element of `Object.keys(v)` (insertion order for the single-key
objects that navigation entries are; `"0"` for a non-empty array). -/
def jsFirstKey : JVal → Option String
  | .obj fields => fields.head?.map (fun f => f.1)
  | .arr es => if es.isEmpty then none else some "0"
  | _ => none

/-! ### Title and description resolution (`renderPage`) -/

/-- A resolved navigation entry. -/
inductive NavItem
  | external (href title : String)
  | internal (mdPath title outPath : String)
deriving DecidableEq

/-- Validation and resolution of one `config.nav` entry, with the source's
thrown errors as `Except.error` of the exact message. -/
def navItemResult (homeMdBasename : String) (item : JVal) : Except String NavItem :=
  if ¬ jsTruthy item ∨ ¬ jsTypeofObject item then
    .error "config.nav items must be objects like \x7b Title: \"href\" \x7d"
  else
    match jsFirstKey item with
    | none => .error "config.nav item is missing a non-empty title key"
    | some title =>
      if jsTrim title = "" then .error "config.nav item is missing a non-empty title key"
      else
        match getField item title with
        | .str href =>
          if jsTrim href = "" then
            .error ("config.nav item '" ++ title ++ "' is missing a non-empty href value")
          else if isExternalUrl href || isMailtoTel href then
            .ok (.external href title)
          else if isMdHref href then
            let mdPath := posixJoin2 REPO_ROOT href
            .ok (.internal mdPath title (computeOutputHtmlPath mdPath homeMdBasename))
          else
            .error ("config.nav item '" ++ title ++ "' has unsupported href '" ++ href
              ++ "'. Use a .md file path or an external URL.")
        | _ => .error ("config.nav item '" ++ title ++ "' is missing a non-empty href value")

/-- Translation of `buildNavItems`: process the entries in order, aborting
on the first malformed entry. -/
def buildNavItems (nav : List JVal) (homeMdBasename : String) :
    Except String (List NavItem) :=
  match nav with
  | [] => .ok []
  | item :: rest =>
    match navItemResult homeMdBasename item with
    | .error e => .error e
    | .ok ni =>
      match buildNavItems rest homeMdBasename with
      | .error e => .error e
      | .ok tl => .ok (ni :: tl)

/-- Replacement of the regex match `(?:^|\/)index\.html$`: strip a final
`index.html` component together with its preceding slash (or at the very
start). -/
def stripIndexHtmlSuffix (s : String) : String :=
  if s = "index.html" then ""
  else if strEndsWith s "/index.html" then String.mk (s.data.take (s.data.length - 11))
  else s

/-- The href computation `buildNavHtml` performs for the home link and for
each internal entry: relative path from the current output directory, with
the directory-index suffix stripped, defaulting to `.` when empty (the
source's `|| "."`). -/
def navHrefFrom (currentDir target : String) : String :=
  let r := stripIndexHtmlSuffix (posixRelative currentDir target)
  if r = "" then "." else r

/-- Anchor markup for one navigation entry, as produced inside
`buildNavHtml`'s map. -/
def renderNavLink (currentDir : String) : NavItem → String
  | .external href title =>
    "<a href=\"" ++ escapeHtml href ++ "\" target=\"_blank\" rel=\"noopener noreferrer\">"
      ++ escapeHtml title ++ "</a>"
  | .internal _ title outPath =>
    "<a href=\"" ++ navHrefFrom currentDir outPath ++ "\">" ++ escapeHtml title ++ "</a>"

/-- JavaScript `String.prototype.replace` with a string pattern: replace
the first occurrence only (dollar substitution in the replacement is not
modelled; no template value uses it). -/
def replaceFirstList (pat rep : List Char) : List Char → List Char
  | [] => if pat.isPrefixOf ([] : List Char) then rep else []
  | c :: cs =>
    if pat.isPrefixOf (c :: cs) then rep ++ (c :: cs).drop pat.length
    else c :: replaceFirstList pat rep cs

/-- String form of `replaceFirstList`. -/
def replaceFirst (s pat rep : String) : String :=
  String.mk (replaceFirstList pat.data rep.data s.data)

/-- Translation of `buildNavHtml`: compute the home href and entry links
relative to the current page's output directory and substitute them into
the navigation template. -/
def buildNavHtml (navItems : List NavItem)
    (currentOutPath siteTitle homeOutPath navTemplate : String) : String :=
  let currentDir := posixDirname currentOutPath
  let homeHref := navHrefFrom currentDir homeOutPath
  let links := navItems.map (renderNavLink currentDir)
  let titleHtml := "<a href=\"" ++ homeHref ++ "\" class=\"site-title\">"
    ++ escapeHtml siteTitle ++ "</a>"
  replaceFirst (replaceFirst navTemplate "\x7b\x7bTITLE_HTML\x7d\x7d" titleHtml)
    "\x7b\x7bLINKS_HTML\x7d\x7d" (String.intercalate " " links)

/-! ### Config loading (`loadConfig`) -/

/-- Translation of `loadConfig`'s validation and defaulting, applied to the
already-parsed YAML document (`yaml.load(raw) || {}`): reject a falsy
`site_title` or `home_md`, default a non-array `nav` to the empty list,
and hand back the fields the build uses. -/
def loadConfig (cfg : JVal) : Except String (JVal × JVal × List JVal) :=
  if ¬ jsTruthy (getField cfg "site_title") then .error "Missing site_title in config"
  else if ¬ jsTruthy (getField cfg "home_md") then .error "Missing home_md in config"
  else
    .ok (getField cfg "site_title", getField cfg "home_md",
      match getField cfg "nav" with
      | .arr l => l
      | _ => [])


/-- Value of a decimal digit string (left fold); inverse of `natToDec` on
its image, used to prove `natToDec` injective. -/
def decParse (cs : List Char) : Nat :=
  cs.foldl (fun acc c => acc * 10 + (c.toNat - 48)) 0

/-! ### Basic lemmas about the splitting utilities -/

theorem chSplit_ne_nil (cs : List Char) : chSplit cs ≠ [] := by
  cases cs with
  | nil => simp [chSplit]
  | cons c cs =>
    simp only [chSplit]
    split <;> simp

theorem chSplit_append_sep (xs ys : List Char) :
    chSplit (xs ++ '/' :: ys) = chSplit xs ++ chSplit ys := by
  induction xs with
  | nil => simp [chSplit]
  | cons x xs ih =>
    by_cases hx : x = '/'
    · subst hx
      simp [chSplit, ih]
    · simp only [List.cons_append, chSplit, if_neg hx]
      have hne := chSplit_ne_nil xs
      cases h : chSplit xs with
      | nil => exact absurd h hne
      | cons a as =>
        simp only [List.append_eq]
        rw [ih, h]
        simp

theorem chSplit_no_sep (cs : List Char) (h : '/' ∉ cs) : chSplit cs = [cs] := by
  induction cs with
  | nil => simp [chSplit]
  | cons c cs ih =>
    simp only [List.mem_cons, not_or] at h
    have hc : ¬ c = '/' := fun hc => h.1 hc.symm
    simp [chSplit, if_neg hc, ih h.2]

theorem chJoin_chSplit (cs : List Char) : chJoin (chSplit cs) = cs := by
  induction cs with
  | nil => simp [chSplit, chJoin]
  | cons c cs ih =>
    by_cases hc : c = '/'
    · subst hc
      simp only [chSplit, if_pos rfl]
      have hne := chSplit_ne_nil cs
      cases h : chSplit cs with
      | nil => exact absurd h hne
      | cons a as =>
        rw [h] at ih
        simp [chJoin, ih]
    · simp only [chSplit, if_neg hc]
      have hne := chSplit_ne_nil cs
      cases h : chSplit cs with
      | nil => exact absurd h hne
      | cons a as =>
        rw [h] at ih
        cases as with
        | nil => simp_all [chJoin]
        | cons b bs => simp_all [chJoin]

theorem chSplit_chJoin (ll : List (List Char)) (hne : ll ≠ [])
    (hclean : ∀ l ∈ ll, '/' ∉ l) : chSplit (chJoin ll) = ll := by
  induction ll with
  | nil => exact absurd rfl hne
  | cons x xs ih =>
    cases xs with
    | nil =>
      simp only [chJoin]
      exact chSplit_no_sep x (hclean x (by simp))
    | cons y ys =>
      have hx : '/' ∉ x := hclean x (by simp)
      have : chJoin (x :: y :: ys) = x ++ '/' :: chJoin (y :: ys) := rfl
      rw [this, chSplit_append_sep, chSplit_no_sep x hx]
      have := ih (by simp) (fun l hl => hclean l (List.mem_cons_of_mem _ hl))
      rw [this]
      rfl

theorem splitAtChar_recompose (c : Char) (cs : List Char) :
    cs = (match (splitAtChar c cs).2 with
          | some rest => (splitAtChar c cs).1 ++ c :: rest
          | none => (splitAtChar c cs).1) := by
  induction cs with
  | nil => simp [splitAtChar]
  | cons x xs ih =>
    by_cases hx : x = c
    · subst hx
      simp [splitAtChar]
    · simp only [splitAtChar, if_neg hx]
      cases h : (splitAtChar c xs).2 with
      | some rest =>
        rw [h] at ih
        simpa using congrArg (x :: ·) ih
      | none =>
        rw [h] at ih
        simpa using congrArg (x :: ·) ih

theorem joinSegs_cons_cons (x y : String) (ys : List String) :
    joinSegs (x :: y :: ys) = x ++ "/" ++ joinSegs (y :: ys) := rfl

theorem string_mk_append (a b : List Char) :
    String.mk a ++ String.mk b = String.mk (a ++ b) := rfl

theorem joinSegs_map_mk (ll : List (List Char)) :
    joinSegs (ll.map String.mk) = String.mk (chJoin ll) := by
  induction ll with
  | nil => rfl
  | cons x xs ih =>
    cases xs with
    | nil => rfl
    | cons y ys =>
      simp only [List.map_cons] at ih ⊢
      have hcj : chJoin (x :: y :: ys) = x ++ '/' :: chJoin (y :: ys) := rfl
      rw [joinSegs_cons_cons, hcj, ih]
      apply String.ext
      simp [String.data_append]

theorem splitSegs_joinSegs (segs : List String) (hne : segs ≠ [])
    (hclean : ∀ s ∈ segs, '/' ∉ s.data) :
    splitSegs (joinSegs segs) = segs := by
  have hclean2 : ∀ l ∈ segs.map String.data, '/' ∉ l := by
    intro l hl
    rcases List.mem_map.mp hl with ⟨s, hs, rfl⟩
    exact hclean s hs
  have hne2 : segs.map String.data ≠ [] := by
    intro h
    exact hne (List.map_eq_nil_iff.mp h)
  have hrep : segs = (segs.map String.data).map String.mk := by
    rw [List.map_map]
    conv_lhs => rw [← List.map_id segs]
    rfl
  conv_lhs => rw [hrep, joinSegs_map_mk]
  rw [splitSegs]
  have hdata : (String.mk (chJoin (segs.map String.data))).data
      = chJoin (segs.map String.data) := rfl
  rw [hdata, chSplit_chJoin _ hne2 hclean2, ← hrep]

theorem joinSegs_append (xs ys : List String) (hxs : xs ≠ []) (hys : ys ≠ []) :
    joinSegs (xs ++ ys) = joinSegs xs ++ "/" ++ joinSegs ys := by
  induction xs with
  | nil => exact absurd rfl hxs
  | cons x xs ih =>
    cases xs with
    | nil =>
      cases ys with
      | nil => exact absurd rfl hys
      | cons y ys => rfl
    | cons z zs =>
      have h1 : joinSegs ((x :: z :: zs) ++ ys) = x ++ "/" ++ joinSegs (z :: zs ++ ys) := rfl
      rw [h1, ih (by simp), joinSegs_cons_cons]
      simp [String.ext_iff, String.data_append]

/-! ### Clean-segment lemmas for the path model -/

theorem cleanSeg_props (s : String) (h : cleanSeg s = true) :
    s ≠ "" ∧ s ≠ "." ∧ s ≠ ".." ∧ '/' ∉ s.data := by
  simp only [cleanSeg, Bool.and_eq_true, decide_eq_true_eq, Bool.not_eq_true'] at h
  obtain ⟨⟨⟨h1, h2⟩, h3⟩, h4⟩ := h
  exact ⟨h1, h2, h3, by simpa using h4⟩

theorem str_data_ne_nil (s : String) (h : s ≠ "") : s.data ≠ [] :=
  fun hd => h (String.ext hd)

theorem joinSegs_cons_data (x : String) (xs : List String) (hxs : xs ≠ []) :
    (joinSegs (x :: xs)).data = x.data ++ '/' :: (joinSegs xs).data := by
  cases xs with
  | nil => exact absurd rfl hxs
  | cons y ys =>
    rw [joinSegs_cons_cons]
    simp [String.data_append]

theorem joinSegs_data_ne_nil (segs : List String) (hne : segs ≠ [])
    (h : ∀ s ∈ segs, cleanSeg s = true) : (joinSegs segs).data ≠ [] := by
  cases segs with
  | nil => exact absurd rfl hne
  | cons x xs =>
    have hx := cleanSeg_props x (h x (by simp))
    cases xs with
    | nil => exact str_data_ne_nil x hx.1
    | cons y ys =>
      rw [joinSegs_cons_data x (y :: ys) (by simp)]
      intro hcontra
      exact str_data_ne_nil x hx.1 (List.append_eq_nil.mp hcontra).1

theorem joinSegs_ne_empty (segs : List String) (hne : segs ≠ [])
    (h : ∀ s ∈ segs, cleanSeg s = true) : joinSegs segs ≠ "" := by
  intro hcontra
  exact joinSegs_data_ne_nil segs hne h (by simp [hcontra])

theorem strHeadIs_joinSegs (segs : List String) (hne : segs ≠ [])
    (h : ∀ s ∈ segs, cleanSeg s = true) : strHeadIs (joinSegs segs) '/' = false := by
  cases segs with
  | nil => exact absurd rfl hne
  | cons x xs =>
    have hx := cleanSeg_props x (h x (by simp))
    have hxd := str_data_ne_nil x hx.1
    have hhead : (joinSegs (x :: xs)).data.head? = x.data.head? := by
      cases xs with
      | nil => rfl
      | cons y ys =>
        rw [joinSegs_cons_data x (y :: ys) (by simp), List.head?_append]
        cases hd : x.data with
        | nil => exact absurd hd hxd
        | cons c cs => simp
    rw [strHeadIs, hhead]
    cases hd : x.data with
    | nil => exact absurd hd hxd
    | cons c cs =>
      have hmem : c ∈ x.data := by rw [hd]; simp
      have hcne : c ≠ '/' := fun hceq => hx.2.2.2 (hceq ▸ hmem)
      simp [hcne]

theorem strLastIs_joinSegs (segs : List String) (hne : segs ≠ [])
    (h : ∀ s ∈ segs, cleanSeg s = true) : strLastIs (joinSegs segs) '/' = false := by
  induction segs with
  | nil => exact absurd rfl hne
  | cons x xs ih =>
    have hx := cleanSeg_props x (h x (by simp))
    have hxd := str_data_ne_nil x hx.1
    cases xs with
    | nil =>
      rw [strLastIs]
      have hjx : joinSegs [x] = x := rfl
      cases hl : x.data.getLast? with
      | none => rw [hjx, hl]; simp
      | some c =>
        have hmem : c ∈ x.data := List.mem_of_mem_getLast? hl
        have hcne : c ≠ '/' := fun hceq => hx.2.2.2 (hceq ▸ hmem)
        rw [hjx, hl]
        simp [hcne]
    | cons y ys =>
      have hys : ∀ s ∈ y :: ys, cleanSeg s = true :=
        fun s hs => h s (List.mem_cons_of_mem _ hs)
      have hyd := joinSegs_data_ne_nil (y :: ys) (by simp) hys
      have htail := ih (by simp) hys
      rw [strLastIs, joinSegs_cons_data x (y :: ys) (by simp), List.getLast?_append]
      cases hd : (joinSegs (y :: ys)).data with
      | nil => exact absurd hd hyd
      | cons c cs =>
        rw [strLastIs, hd] at htail
        have : ('/' :: c :: cs).getLast? = (c :: cs).getLast? := List.getLast?_cons_cons
        rw [this]
        have hsome : (c :: cs).getLast?.isSome := by
          cases hgl : (c :: cs).getLast? with
          | none => simp [List.getLast?] at hgl
          | some d => rfl
        cases hgl : (c :: cs).getLast? with
        | none => rw [hgl] at hsome; simp at hsome
        | some d =>
          rw [hgl] at htail
          simpa using htail

theorem splitSegs_append_sep (a b : String) :
    splitSegs (a ++ "/" ++ b) = splitSegs a ++ splitSegs b := by
  have hdata : (a ++ "/" ++ b).data = a.data ++ '/' :: b.data := by
    simp [String.data_append]
  rw [splitSegs, hdata, chSplit_append_sep]
  simp [splitSegs]

theorem cleanSeg_no_slash (s : String) (h : cleanSeg s = true) : '/' ∉ s.data :=
  (cleanSeg_props s h).2.2.2

theorem normStep_empty (allow : Bool) (acc : List String) :
    normStep allow acc "" = acc := by
  simp [normStep]

theorem normStep_clean (allow : Bool) (acc : List String) (s : String)
    (h : cleanSeg s = true) : normStep allow acc s = s :: acc := by
  obtain ⟨h1, h2, h3, _⟩ := cleanSeg_props s h
  simp [normStep, h1, h2, h3]

theorem foldl_normStep_clean (allow : Bool) (segs : List String) (acc : List String)
    (h : ∀ s ∈ segs, s = "" ∨ cleanSeg s = true) :
    segs.foldl (normStep allow) acc = (segs.filter (fun s => s ≠ "")).reverse ++ acc := by
  induction segs generalizing acc with
  | nil => simp
  | cons x xs ih =>
    have hx := h x (by simp)
    have hxs : ∀ s ∈ xs, s = "" ∨ cleanSeg s = true :=
      fun s hs => h s (List.mem_cons_of_mem _ hs)
    cases hx with
    | inl hx1 =>
      subst hx1
      rw [List.foldl_cons, normStep_empty, ih _ hxs]
      simp
    | inr hx1 =>
      have h1 := (cleanSeg_props x hx1).1
      rw [List.foldl_cons, normStep_clean allow acc x hx1, ih _ hxs]
      simp [List.filter_cons, h1]

theorem normSegs_clean (allow : Bool) (segs : List String)
    (h : ∀ s ∈ segs, s = "" ∨ cleanSeg s = true) :
    normSegs allow segs = segs.filter (fun s => s ≠ "") := by
  rw [normSegs, foldl_normStep_clean allow segs [] h]
  simp

theorem filter_ne_empty_of_clean (segs : List String)
    (h : ∀ s ∈ segs, cleanSeg s = true) :
    segs.filter (fun s => s ≠ "") = segs :=
  List.filter_eq_self.mpr (fun s hs => by simp [(cleanSeg_props s (h s hs)).1])

theorem normalize_abs_clean (segs : List String) (hne : segs ≠ [])
    (h : ∀ s ∈ segs, cleanSeg s = true) :
    posixNormalize ("/" ++ joinSegs segs) = "/" ++ joinSegs segs := by
  have hdata : ("/" ++ joinSegs segs).data = '/' :: (joinSegs segs).data := by
    simp [String.data_append]
  have hnonempty : ("/" ++ joinSegs segs) ≠ "" := by
    intro hcontra
    have := congrArg String.data hcontra
    rw [hdata] at this
    simp at this
  have hhead : strHeadIs ("/" ++ joinSegs segs) '/' = true := by
    rw [strHeadIs, hdata]
    simp
  have hlast : strLastIs ("/" ++ joinSegs segs) '/' = false := by
    rw [strLastIs, hdata]
    cases hd : (joinSegs segs).data with
    | nil => exact absurd hd (joinSegs_data_ne_nil segs hne h)
    | cons c cs =>
      rw [List.getLast?_cons_cons]
      have := strLastIs_joinSegs segs hne h
      rw [strLastIs, hd] at this
      exact this
  have hsplit : splitSegs ("/" ++ joinSegs segs) = "" :: segs := by
    rw [splitSegs, hdata]
    have : chSplit ('/' :: (joinSegs segs).data) = [] :: chSplit (joinSegs segs).data := by
      simp [chSplit]
    rw [this]
    have := splitSegs_joinSegs segs hne (fun s hs => cleanSeg_no_slash s (h s hs))
    rw [splitSegs] at this
    simp [this]
  have hnorm : normSegs false ("" :: segs) = segs := by
    rw [normSegs_clean false ("" :: segs)
      (by intro s hs
          rcases List.mem_cons.mp hs with h1 | h1
          · exact Or.inl h1
          · exact Or.inr (h s h1))]
    have hstep : ("" :: segs).filter (fun s => s ≠ "") = segs.filter (fun s => s ≠ "") := by
      simp [List.filter_cons]
    rw [hstep, filter_ne_empty_of_clean segs h]
  have hcore : joinSegs segs ≠ "" := joinSegs_ne_empty segs hne h
  rw [posixNormalize, if_neg hnonempty]
  simp only [hhead, hlast, hsplit, Bool.not_true]
  rw [hnorm]
  simp [hcore]

theorem joinSegs_cons_ne (x : String) (xs : List String) (hxs : xs ≠ []) :
    joinSegs (x :: xs) = x ++ "/" ++ joinSegs xs := by
  cases xs with
  | nil => exact absurd rfl hxs
  | cons y ys => rfl

theorem splitSegs_slash_join (segs : List String) (hne : segs ≠ [])
    (h : ∀ s ∈ segs, cleanSeg s = true) :
    splitSegs ("/" ++ joinSegs segs) = "" :: segs := by
  have hdata : ("/" ++ joinSegs segs).data = '/' :: (joinSegs segs).data := by
    simp [String.data_append]
  rw [splitSegs, hdata]
  have hstep : chSplit ('/' :: (joinSegs segs).data) = [] :: chSplit (joinSegs segs).data := by
    simp [chSplit]
  rw [hstep]
  have hrt := splitSegs_joinSegs segs hne (fun s hs => cleanSeg_no_slash s (h s hs))
  rw [splitSegs] at hrt
  simp [hrt]

theorem normSegs_cons_empty_clean (allow : Bool) (segs : List String)
    (h : ∀ s ∈ segs, cleanSeg s = true) :
    normSegs allow ("" :: segs) = segs := by
  rw [normSegs_clean allow ("" :: segs)
    (by intro s hs
        rcases List.mem_cons.mp hs with h1 | h1
        · exact Or.inl h1
        · exact Or.inr (h s h1))]
  have hstep : ("" :: segs).filter (fun s => s ≠ "") = segs.filter (fun s => s ≠ "") := by
    simp [List.filter_cons]
  rw [hstep, filter_ne_empty_of_clean segs h]

theorem normalize_rel_clean (segs : List String) (hne : segs ≠ [])
    (h : ∀ s ∈ segs, cleanSeg s = true) :
    posixNormalize (joinSegs segs) = joinSegs segs := by
  have hnonempty := joinSegs_ne_empty segs hne h
  have hhead := strHeadIs_joinSegs segs hne h
  have hlast := strLastIs_joinSegs segs hne h
  have hsplit := splitSegs_joinSegs segs hne (fun s hs => cleanSeg_no_slash s (h s hs))
  have hnorm : normSegs true segs = segs := by
    rw [normSegs_clean true segs (fun s hs => Or.inr (h s hs)),
      filter_ne_empty_of_clean segs h]
  rw [posixNormalize, if_neg hnonempty]
  simp only [hhead, hlast, hsplit, Bool.not_false]
  rw [hnorm]
  simp [hnonempty]

theorem posixJoin2_repo (segs : List String) (hne : segs ≠ [])
    (h : ∀ s ∈ segs, cleanSeg s = true) :
    posixJoin2 REPO_ROOT (joinSegs segs) = "/" ++ joinSegs ("repo" :: segs) := by
  have ht := joinSegs_ne_empty segs hne h
  rw [posixJoin2, posixJoinList]
  have hfilter : [REPO_ROOT, joinSegs segs].filter (fun s => s ≠ "")
      = [REPO_ROOT, joinSegs segs] := by
    simp [List.filter_cons, ht, REPO_ROOT]
  simp only [hfilter]
  have hne2 : ([REPO_ROOT, joinSegs segs] : List String) ≠ [] := by simp
  rw [if_neg hne2]
  have heq : joinSegs [REPO_ROOT, joinSegs segs] = "/" ++ joinSegs ("repo" :: segs) := by
    rw [joinSegs_cons_cons, joinSegs_cons_ne "repo" segs hne]
    have h1 : joinSegs [joinSegs segs] = joinSegs segs := rfl
    rw [h1]
    have hlit : (REPO_ROOT ++ "/" : String) = "/" ++ "repo" ++ "/" := by decide
    rw [hlit]
    simp only [String.append_assoc]
  rw [heq]
  exact normalize_abs_clean ("repo" :: segs) (by simp)
    (by intro s hs
        rcases List.mem_cons.mp hs with h1 | h1
        · subst h1; decide
        · exact h s h1)

theorem posixJoin2_relative (xs ys : List String) (hxs : xs ≠ []) (hys : ys ≠ [])
    (hx : ∀ s ∈ xs, cleanSeg s = true) (hy : ∀ s ∈ ys, cleanSeg s = true) :
    posixJoin2 (joinSegs xs) (joinSegs ys) = joinSegs (xs ++ ys) := by
  have hxne := joinSegs_ne_empty xs hxs hx
  have hyne := joinSegs_ne_empty ys hys hy
  rw [posixJoin2, posixJoinList]
  have hfilter : [joinSegs xs, joinSegs ys].filter (fun s => s ≠ "")
      = [joinSegs xs, joinSegs ys] := by
    simp [List.filter_cons, hxne, hyne]
  simp only [hfilter]
  have hne2 : ([joinSegs xs, joinSegs ys] : List String) ≠ [] := by simp
  rw [if_neg hne2]
  have heq : joinSegs [joinSegs xs, joinSegs ys] = joinSegs (xs ++ ys) := by
    rw [joinSegs_append xs ys hxs hys]
    rfl
  rw [heq]
  exact normalize_rel_clean (xs ++ ys) (by simp [hxs])
    (by intro s hs
        rcases List.mem_append.mp hs with h1 | h1
        · exact hx s h1
        · exact hy s h1)

theorem outputRoot_eq : OUTPUT_ROOT = "/repo/_site" := by decide

theorem posixJoinList_out (segs : List String) (hne : segs ≠ [])
    (h : ∀ s ∈ segs, cleanSeg s = true) :
    posixJoinList [OUTPUT_ROOT, joinSegs segs, "index.html"] =
      "/" ++ joinSegs ("repo" :: "_site" :: (segs ++ ["index.html"])) := by
  have ht := joinSegs_ne_empty segs hne h
  rw [posixJoinList, outputRoot_eq]
  have hfilter : (["/repo/_site", joinSegs segs, "index.html"] : List String).filter
      (fun s => s ≠ "") = ["/repo/_site", joinSegs segs, "index.html"] := by
    simp [List.filter_cons, ht]
  simp only [hfilter]
  have hne2 : (["/repo/_site", joinSegs segs, "index.html"] : List String) ≠ [] := by simp
  rw [if_neg hne2]
  have hclean : ∀ s ∈ "repo" :: "_site" :: (segs ++ ["index.html"]), cleanSeg s = true := by
    intro s hs
    rcases List.mem_cons.mp hs with h1 | hs
    · subst h1; decide
    rcases List.mem_cons.mp hs with h1 | hs
    · subst h1; decide
    rcases List.mem_append.mp hs with h1 | h1
    · exact h s h1
    · simp at h1; subst h1; decide
  have heq : joinSegs ["/repo/_site", joinSegs segs, "index.html"]
      = "/" ++ joinSegs ("repo" :: "_site" :: (segs ++ ["index.html"])) := by
    rw [joinSegs_cons_cons, joinSegs_cons_cons,
      joinSegs_cons_ne "repo" _ (by simp), joinSegs_cons_ne "_site" _ (by simp),
      joinSegs_append segs ["index.html"] hne (by simp)]
    have h1 : joinSegs ["index.html"] = "index.html" := rfl
    rw [h1]
    apply String.ext
    have d1 : ("/repo/_site" : String).data = "/".data ++ "repo".data ++ "/".data
        ++ "_site".data := by decide
    simp only [String.data_append, d1]
    simp
  rw [heq]
  exact normalize_abs_clean _ (by simp) hclean

theorem display_out (segs : List String) (hne : segs ≠ []) :
    "/" ++ joinSegs ("repo" :: "_site" :: (segs ++ ["index.html"])) =
      "/repo/_site/" ++ joinSegs segs ++ "/index.html" := by
  rw [joinSegs_cons_ne "repo" _ (by simp), joinSegs_cons_ne "_site" _ (by simp),
    joinSegs_append segs ["index.html"] hne (by simp)]
  have h1 : joinSegs ["index.html"] = "index.html" := rfl
  rw [h1]
  apply String.ext
  have d1 : ("/repo/_site/" : String).data = "/".data ++ "repo".data ++ "/".data
      ++ "_site".data ++ "/".data := by decide
  have d2 : ("/index.html" : String).data = "/".data ++ "index.html".data := by decide
  simp only [String.data_append, d1, d2]
  simp

theorem posixRelative_repo (segs : List String) (hne : segs ≠ [])
    (h : ∀ s ∈ segs, cleanSeg s = true) :
    posixRelative REPO_ROOT ("/" ++ joinSegs ("repo" :: segs)) = joinSegs segs := by
  have hclean : ∀ s ∈ "repo" :: segs, cleanSeg s = true := by
    intro s hs
    rcases List.mem_cons.mp hs with h1 | h1
    · subst h1; decide
    · exact h s h1
  rw [posixRelative]
  have hfs : normSegs false (splitSegs REPO_ROOT) = ["repo"] := by decide
  have hts : normSegs false (splitSegs ("/" ++ joinSegs ("repo" :: segs)))
      = "repo" :: segs := by
    rw [splitSegs_slash_join _ (by simp) hclean]
    exact normSegs_cons_empty_clean false _ hclean
  rw [hfs, hts]
  have hcp : commonPrefixLen ["repo"] ("repo" :: segs) = 1 := by
    simp [commonPrefixLen]
  rw [hcp]
  simp

theorem posixBasename_clean (dirSegs : List String) (base : String)
    (hb : cleanSeg base = true) (hd : ∀ s ∈ dirSegs, cleanSeg s = true) :
    posixBasename (joinSegs (dirSegs ++ [base])) = base := by
  have hclean : ∀ s ∈ dirSegs ++ [base], cleanSeg s = true := by
    intro s hs
    rcases List.mem_append.mp hs with h1 | h1
    · exact hd s h1
    · simp at h1; subst h1; exact hb
  rw [posixBasename, splitSegs_joinSegs _ (by simp)
    (fun s hs => cleanSeg_no_slash s (hclean s hs))]
  rw [List.reverse_append]
  have hrev : ([base] : List String).reverse = [base] := rfl
  rw [hrev]
  have hfind : List.find? (fun s => s ≠ "") (base :: dirSegs.reverse) = some base :=
    List.find?_cons_of_pos _ (by simp [(cleanSeg_props base hb).1])
  have hstep : ([base] ++ dirSegs.reverse : List String) = base :: dirSegs.reverse := rfl
  rw [hstep, hfind]
  rfl

theorem posixDirname_clean (dirSegs : List String) (base : String)
    (hb : cleanSeg base = true) (hd : ∀ s ∈ dirSegs, cleanSeg s = true) :
    posixDirname (joinSegs (dirSegs ++ [base])) =
      (if dirSegs = [] then "." else joinSegs dirSegs) := by
  have hclean : ∀ s ∈ dirSegs ++ [base], cleanSeg s = true := by
    intro s hs
    rcases List.mem_append.mp hs with h1 | h1
    · exact hd s h1
    · simp at h1; subst h1; exact hb
  have hbne := (cleanSeg_props base hb).1
  rw [posixDirname, splitSegs_joinSegs _ (by simp)
    (fun s hs => cleanSeg_no_slash s (hclean s hs))]
  have hdrop : dropTrailingEmpty (dirSegs ++ [base]) = dirSegs ++ [base] := by
    rw [dropTrailingEmpty, List.reverse_append]
    have hrev : ([base] : List String).reverse = [base] := rfl
    rw [hrev]
    have hstep : ([base] ++ dirSegs.reverse : List String) = base :: dirSegs.reverse := rfl
    rw [hstep, List.dropWhile_cons_of_neg (by simp [hbne])]
    simp
  rw [hdrop, List.dropLast_concat]
  cases hds : dirSegs with
  | nil =>
    have hh : strHeadIs (joinSegs [base]) '/' = false :=
      strHeadIs_joinSegs [base] (by simp) (by simpa using hb)
    simp [hh]
  | cons d ds =>
    have hdne : d ≠ "" := (cleanSeg_props d (hd d (by rw [hds]; simp))).1
    simp [hdne]

theorem joinSegs_ne_dot (segs : List String) (hne : segs ≠ [])
    (h : ∀ s ∈ segs, cleanSeg s = true) : joinSegs segs ≠ "." := by
  cases segs with
  | nil => exact absurd rfl hne
  | cons d ds =>
    cases ds with
    | nil =>
      have hd1 := (cleanSeg_props d (h d (by simp))).2.1
      exact fun hc => hd1 (by rwa [show joinSegs [d] = d from rfl] at hc)
    | cons e es =>
      intro hcontra
      have hdata := congrArg String.data hcontra
      rw [joinSegs_cons_data d (e :: es) (by simp)] at hdata
      have hmem : '/' ∈ d.data ++ '/' :: (joinSegs (e :: es)).data := by simp
      rw [hdata] at hmem
      have : ('/' : Char) ∉ ("." : String).data := by decide
      exact this hmem

/-! ### Claim C1 -/

/-- C1: the path resolver maps a content path (decomposed here into its
clean directory segments and basename under the repository root) and the
home basename to exactly one output path by the ordered rules: a root-level
file whose basename equals the home basename (or the conventional
`README.md`) maps to the site-root `index.html`; a root-level `404.md` maps
to the top-level `404.html`, not nested under a directory; any file named
`index.md` maps to its directory's `index.html`; every other file
`foo/bar.md` maps to `foo/bar/index.html`. -/
theorem c1_path_resolution_rules (dirSegs : List String) (base home : String)
    (hb : cleanSeg base = true) (hb2 : cleanSeg (stripMdExt base) = true)
    (hd : ∀ s ∈ dirSegs, cleanSeg s = true) :
    (dirSegs = [] → (base = home ∨ base = "README.md") →
      computeOutputHtmlPath (posixJoin2 REPO_ROOT (joinSegs (dirSegs ++ [base]))) home
        = "/repo/_site/index.html")
    ∧ (dirSegs = [] → base ≠ home → base ≠ "README.md" → base = "404.md" →
      computeOutputHtmlPath (posixJoin2 REPO_ROOT (joinSegs (dirSegs ++ [base]))) home
        = "/repo/_site/404.html")
    ∧ ((dirSegs = [] → base ≠ home ∧ base ≠ "README.md" ∧ base ≠ "404.md") →
      base = "index.md" →
      computeOutputHtmlPath (posixJoin2 REPO_ROOT (joinSegs (dirSegs ++ [base]))) home
        = (if dirSegs = [] then "/repo/_site/index.html"
           else "/repo/_site/" ++ joinSegs dirSegs ++ "/index.html"))
    ∧ ((dirSegs = [] → base ≠ home ∧ base ≠ "README.md" ∧ base ≠ "404.md") →
      base ≠ "index.md" →
      computeOutputHtmlPath (posixJoin2 REPO_ROOT (joinSegs (dirSegs ++ [base]))) home
        = (if dirSegs = [] then "/repo/_site/" ++ stripMdExt base ++ "/index.html"
           else "/repo/_site/" ++ joinSegs dirSegs ++ "/" ++ stripMdExt base
             ++ "/index.html")) := by
  have hrelclean : ∀ s ∈ dirSegs ++ [base], cleanSeg s = true := by
    intro s hs
    rcases List.mem_append.mp hs with h1 | h1
    · exact hd s h1
    · simp at h1; subst h1; exact hb
  have hrelne : (dirSegs ++ [base] : List String) ≠ [] := by simp
  have hjoin := posixJoin2_repo (dirSegs ++ [base]) hrelne hrelclean
  have hrel : posixRelative REPO_ROOT
      (posixJoin2 REPO_ROOT (joinSegs (dirSegs ++ [base]))) = joinSegs (dirSegs ++ [base]) := by
    rw [hjoin]
    exact posixRelative_repo _ hrelne hrelclean
  have hbase := posixBasename_clean dirSegs base hb hd
  have hdir := posixDirname_clean dirSegs base hb hd
  have hout : computeOutputHtmlPath (posixJoin2 REPO_ROOT (joinSegs (dirSegs ++ [base]))) home
      = (if (if dirSegs = [] then "." else joinSegs dirSegs) = "."
            ∧ (base = home ∨ base = "README.md") then
          posixJoin2 OUTPUT_ROOT "index.html"
        else if (if dirSegs = [] then "." else joinSegs dirSegs) = "." ∧ base = "404.md" then
          posixJoin2 OUTPUT_ROOT "404.html"
        else if base = "index.md" then
          posixJoinList [OUTPUT_ROOT, if dirSegs = [] then "." else joinSegs dirSegs,
            "index.html"]
        else
          posixJoinList [OUTPUT_ROOT,
            if (if dirSegs = [] then "." else joinSegs dirSegs) = "." then stripMdExt base
            else posixJoin2 (if dirSegs = [] then "." else joinSegs dirSegs) (stripMdExt base),
            "index.html"]) := by
    rw [computeOutputHtmlPath, hrel, hbase, hdir]
  have e1 : (if ([] : List String) = [] then "." else joinSegs ([] : List String)) = "." :=
    rfl
  refine ⟨?_, ?_, ?_, ?_⟩
  · intro h0 hor
    subst h0
    rw [hout, e1, if_pos ⟨rfl, hor⟩]
    decide
  · intro h0 h1 h2 h3
    subst h0
    rw [hout, e1, if_neg (by simp [h1, h2]), if_pos ⟨rfl, h3⟩]
    decide
  · intro hguard hidx
    by_cases hroot : dirSegs = []
    · subst hroot
      obtain ⟨g1, g2, g3⟩ := hguard rfl
      rw [hout, e1, if_neg (by simp [g1, g2]), if_neg (by simp [g3]), if_pos hidx,
        if_pos (rfl : ([] : List String) = [])]
      decide
    · have hdot := joinSegs_ne_dot dirSegs hroot hd
      rw [hout]
      simp only [if_neg hroot]
      rw [if_neg (fun hc => hdot hc.1), if_neg (fun hc => hdot hc.1), if_pos hidx]
      rw [posixJoinList_out dirSegs hroot hd, display_out dirSegs hroot]
  · intro hguard hidx
    have hname : ∀ s ∈ [stripMdExt base], cleanSeg s = true := by simpa using hb2
    by_cases hroot : dirSegs = []
    · subst hroot
      obtain ⟨g1, g2, g3⟩ := hguard rfl
      rw [hout, e1, if_neg (by simp [g1, g2]), if_neg (by simp [g3]), if_neg hidx,
        if_pos (rfl : ("." : String) = "."), if_pos (rfl : ([] : List String) = [])]
      rw [show stripMdExt base = joinSegs [stripMdExt base] from rfl,
        posixJoinList_out [stripMdExt base] (by simp) hname,
        display_out [stripMdExt base] (by simp)]
    · have hdot := joinSegs_ne_dot dirSegs hroot hd
      rw [hout]
      simp only [if_neg hroot]
      rw [if_neg (fun hc => hdot hc.1), if_neg (fun hc => hdot hc.1), if_neg hidx,
        if_neg hdot]
      have hpj : posixJoin2 (joinSegs dirSegs) (stripMdExt base)
          = joinSegs (dirSegs ++ [stripMdExt base]) := by
        have h0 := posixJoin2_relative dirSegs [stripMdExt base] hroot (by simp) hd hname
        rw [show joinSegs [stripMdExt base] = stripMdExt base from rfl] at h0
        exact h0
      rw [hpj,
        posixJoinList_out (dirSegs ++ [stripMdExt base]) (by simp) (by
          intro s hs
          rcases List.mem_append.mp hs with h1 | h1
          · exact hd s h1
          · simp at h1; subst h1; exact hb2),
        display_out (dirSegs ++ [stripMdExt base]) (by simp),
        joinSegs_append dirSegs [stripMdExt base] hroot (by simp)]
      rw [show joinSegs [stripMdExt base] = stripMdExt base from rfl]
      simp only [String.append_assoc]

/-- Witness instantiating C1 at the concrete content path `foo/bar.md`. -/
theorem c1_path_resolution_rules_witness :
    computeOutputHtmlPath (posixJoin2 REPO_ROOT (joinSegs (["foo"] ++ ["bar.md"])))
      "README.md" = "/repo/_site/foo/bar/index.html" := by
  have h := c1_path_resolution_rules ["foo"] "bar.md" "README.md"
    (by decide) (by decide) (by decide)
  have h4 := h.2.2.2 (by intro hc; cases hc) (by decide)
  simpa using h4

/-! ### Rewriter lemmas (claims C2 to C5) -/

theorem splitAtChar_recompose_some (c : Char) (cs r : List Char)
    (h : (splitAtChar c cs).2 = some r) : cs = (splitAtChar c cs).1 ++ c :: r := by
  have h0 := splitAtChar_recompose c cs
  rw [h] at h0
  exact h0

theorem splitAtChar_recompose_none (c : Char) (cs : List Char)
    (h : (splitAtChar c cs).2 = none) : cs = (splitAtChar c cs).1 := by
  have h0 := splitAtChar_recompose c cs
  rw [h] at h0
  exact h0

theorem string_append_eq_empty (a b : String) (h : a ++ b = "") : a = "" ∧ b = "" := by
  have hd := congrArg String.data h
  rw [String.data_append] at hd
  have := List.append_eq_nil.mp hd
  exact ⟨String.ext this.1, String.ext this.2⟩

theorem splitRef_decomp (raw : String) :
    raw = (splitRef raw).1 ++ (splitRef raw).2.1 ++ refHashRaw raw := by
  apply String.ext
  rw [splitRef, refHashRaw]
  cases hh : (splitAtChar '#' raw.data).2 with
  | some r =>
    have hfront := splitAtChar_recompose_some '#' raw.data r hh
    cases hq : (splitAtChar '?' (splitAtChar '#' raw.data).1).2 with
    | some qr =>
      have hp := splitAtChar_recompose_some '?' (splitAtChar '#' raw.data).1 qr hq
      conv_lhs => rw [hfront, hp]
      simp [String.data_append, hh, hq]
    | none =>
      have hp := splitAtChar_recompose_none '?' (splitAtChar '#' raw.data).1 hq
      conv_lhs => rw [hfront, hp]
      simp [String.data_append, hh, hq]
  | none =>
    have hfront := splitAtChar_recompose_none '#' raw.data hh
    cases hq : (splitAtChar '?' (splitAtChar '#' raw.data).1).2 with
    | some qr =>
      have hp := splitAtChar_recompose_some '?' (splitAtChar '#' raw.data).1 qr hq
      conv_lhs => rw [hfront, hp]
      simp [String.data_append, hh, hq]
    | none =>
      have hp := splitAtChar_recompose_none '?' (splitAtChar '#' raw.data).1 hq
      conv_lhs => rw [hfront, hp]
      simp [String.data_append, hh, hq]

theorem rewriteAttrValue_not_skipped (isHref : Bool) (raw sourceDir currentDir : String)
    (h0 : raw ≠ "") (h1 : isExternalUrl raw = false) (h2 : isMailtoTel raw = false)
    (h3 : strStartsWith raw "#" = false) :
    rewriteAttrValue isHref raw sourceDir currentDir =
      (match (if isHref then some (splitRef raw).1
              else
                match decodeURI (splitRef raw).1 with
                | none => none
                | some decoded =>
                  some (posixRelative currentDir (posixJoin2 OUTPUT_ROOT
                    (posixRelative REPO_ROOT (posixResolveAbs sourceDir decoded))))) with
       | none => none
       | some pathPart =>
         some (if (pathPart ++ (splitRef raw).2.1
               ++ (if (splitRef raw).2.2 = "" then "" else "#" ++ (splitRef raw).2.2)) = ""
             ∧ isHref = true then "."
           else pathPart ++ (splitRef raw).2.1
             ++ (if (splitRef raw).2.2 = "" then "" else "#" ++ (splitRef raw).2.2))) := by
  rw [rewriteAttrValue, if_neg h0]
  simp only [h1, h2, h3, Bool.false_eq_true, if_false]

/-! ### Claim C2 -/

/-- C2 counterexample: a stylesheet reference carried by a `link` element's
`href` attribute is returned as authored, not rebased through the
resolve/relative/join/relative chain the claim prescribes for stylesheets
(its path decodes to itself, so the chain is well-defined and yields a
different value); moreover a src-carried image reference with a malformed
percent-escape is not rebased either — the rewriter throws. -/
theorem c2_stylesheet_counterexample :
    rebaseAssetRef RefEl.link "assets/style.css" "/repo/blog/post.md"
        "/repo/_site/blog/post/index.html" = some "assets/style.css"
    ∧ decodeURI "assets/style.css" = some "assets/style.css"
    ∧ posixRelative (posixDirname "/repo/_site/blog/post/index.html")
        (posixJoin2 OUTPUT_ROOT (posixRelative REPO_ROOT
          (posixResolveAbs (posixDirname "/repo/blog/post.md") "assets/style.css")))
        = "../assets/style.css"
    ∧ ("assets/style.css" : String) ≠ "../assets/style.css"
    ∧ rebaseAssetRef RefEl.img "a%zz.png" "/repo/blog/post.md"
        "/repo/_site/blog/post/index.html" = none := by
  refine ⟨?_, ?_, ?_, ?_, ?_⟩ <;> decide

/-- C2 (amended): for every reference attribute of a src-carrying embeddable
element (image, video/audio source, script) whose value is not skipped by
classification: when the percent-escapes of the path component decode, the
rewriter replaces the path component by resolving the decoded path against
the source content file's directory, re-expressing that absolute location
relative to the repository root, mapping it under the output tree, and
taking the relative path from the current page's output directory, then
reassembles with the original query and fragment; when decoding fails the
unhandled `URIError` aborts the build with nothing rewritten.  Stylesheet
links carry their reference in `href` and are left as authored instead. -/
theorem c2_src_asset_rebase (el : RefEl) (raw sourceMdPath currentOutPath : String)
    (he : elUsesHref el = false)
    (h0 : raw ≠ "") (h1 : isExternalUrl raw = false) (h2 : isMailtoTel raw = false)
    (h3 : strStartsWith raw "#" = false) :
    (∀ decoded, decodeURI (splitRef raw).1 = some decoded →
      rebaseAssetRef el raw sourceMdPath currentOutPath =
        some (posixRelative (posixDirname currentOutPath)
          (posixJoin2 OUTPUT_ROOT (posixRelative REPO_ROOT
            (posixResolveAbs (posixDirname sourceMdPath) decoded)))
        ++ (splitRef raw).2.1
        ++ (if (splitRef raw).2.2 = "" then "" else "#" ++ (splitRef raw).2.2)))
    ∧ (decodeURI (splitRef raw).1 = none →
      rebaseAssetRef el raw sourceMdPath currentOutPath = none) := by
  constructor
  · intro decoded hdec
    rw [rebaseAssetRef, he, rewriteAttrValue_not_skipped false _ _ _ h0 h1 h2 h3]
    simp [hdec]
  · intro hdec
    rw [rebaseAssetRef, he, rewriteAttrValue_not_skipped false _ _ _ h0 h1 h2 h3]
    simp [hdec]

/-- Witness instantiating the amended C2 on an image reference with a query
and a fragment, whose path component decodes to itself. -/
theorem c2_src_asset_rebase_witness :
    rebaseAssetRef RefEl.img "../img/logo.png?v=2#frag" "/repo/blog/post.md"
        "/repo/_site/blog/post/index.html" =
      some (posixRelative (posixDirname "/repo/_site/blog/post/index.html")
        (posixJoin2 OUTPUT_ROOT (posixRelative REPO_ROOT
          (posixResolveAbs (posixDirname "/repo/blog/post.md") "../img/logo.png")))
      ++ (splitRef "../img/logo.png?v=2#frag").2.1
      ++ (if (splitRef "../img/logo.png?v=2#frag").2.2 = "" then ""
          else "#" ++ (splitRef "../img/logo.png?v=2#frag").2.2)) := by
  have h := c2_src_asset_rebase RefEl.img "../img/logo.png?v=2#frag" "/repo/blog/post.md"
    "/repo/_site/blog/post/index.html" (by decide) (by decide) (by decide) (by decide)
    (by decide)
  exact h.1 "../img/logo.png" (by decide)

/-! ### Claim C3 -/

/-- C3 counterexample: a src-carried reference whose path component has a
malformed percent-escape is not skipped by classification, yet the rewriter
throws (`decodeURI` raises `URIError`, unhandled in `render.js`), so no
rewritten value exists in which the components could appear. -/
theorem c3_urierror_counterexample :
    isExternalUrl "a%zz.png" = false
    ∧ isMailtoTel "a%zz.png" = false
    ∧ strStartsWith "a%zz.png" "#" = false
    ∧ rebaseAssetRef RefEl.img "a%zz.png" "/repo/blog/post.md"
        "/repo/_site/blog/post/index.html" = none := by
  refine ⟨?_, ?_, ?_, ?_⟩ <;> decide

/-- C3 (amended): every candidate reference value that is not skipped by
classification splits into path, query and fragment components — the
authored value is exactly their reassembly — and every rewritten value the
rewriter returns carries the authored query and fragment components
verbatim after some path; href-carried values always yield a rewritten
value, while a src-carried value whose path component fails to decode makes
the rewriter throw, so no rewritten value exists and the build aborts. -/
theorem c3_query_fragment_verbatim (el : RefEl) (raw sourceMdPath currentOutPath : String)
    (h0 : raw ≠ "") (h1 : isExternalUrl raw = false) (h2 : isMailtoTel raw = false)
    (h3 : strStartsWith raw "#" = false) :
    raw = (splitRef raw).1 ++ (splitRef raw).2.1 ++ refHashRaw raw
    ∧ (∀ result, rebaseAssetRef el raw sourceMdPath currentOutPath = some result →
        ∃ p, result = p ++ (splitRef raw).2.1
          ++ (if (splitRef raw).2.2 = "" then "" else "#" ++ (splitRef raw).2.2))
    ∧ (elUsesHref el = true →
        ∃ result, rebaseAssetRef el raw sourceMdPath currentOutPath = some result) := by
  refine ⟨splitRef_decomp raw, ?_, ?_⟩
  · intro result hres
    rw [rebaseAssetRef, rewriteAttrValue_not_skipped _ _ _ _ h0 h1 h2 h3] at hres
    cases helh : elUsesHref el with
    | false =>
      rw [helh] at hres
      simp only [Bool.false_eq_true, if_false] at hres
      cases hdec : decodeURI (splitRef raw).1 with
      | none =>
        rw [hdec] at hres
        cases hres
      | some decoded =>
        rw [hdec] at hres
        simp only [Option.some.injEq] at hres
        simp only [Bool.false_eq_true, and_false, if_false] at hres
        exact ⟨_, hres.symm⟩
    | true =>
      rw [helh] at hres
      simp only [if_true, Option.some.injEq, and_true] at hres
      by_cases hv : (splitRef raw).1 ++ (splitRef raw).2.1
          ++ (if (splitRef raw).2.2 = "" then "" else "#" ++ (splitRef raw).2.2) = ""
      · rw [if_pos hv] at hres
        obtain ⟨hpq, hh⟩ := string_append_eq_empty _ _ hv
        obtain ⟨hp, hq⟩ := string_append_eq_empty _ _ hpq
        refine ⟨".", ?_⟩
        rw [← hres, hq, hh]
        rfl
      · rw [if_neg hv] at hres
        exact ⟨(splitRef raw).1, hres.symm⟩
  · intro helh
    rw [rebaseAssetRef, helh, rewriteAttrValue_not_skipped true _ _ _ h0 h1 h2 h3]
    exact ⟨_, rfl⟩

/-- Witness instantiating the amended C3 on a hyperlink value carrying a
query and a fragment (the rewriter returns it unchanged, so the rewritten
value is the authored one). -/
theorem c3_query_fragment_verbatim_witness :
    ("doc.md?x=1#sec" : String)
      = (splitRef "doc.md?x=1#sec").1 ++ (splitRef "doc.md?x=1#sec").2.1
        ++ refHashRaw "doc.md?x=1#sec"
    ∧ ∃ p, ("doc.md?x=1#sec" : String)
        = p ++ (splitRef "doc.md?x=1#sec").2.1
          ++ (if (splitRef "doc.md?x=1#sec").2.2 = "" then ""
              else "#" ++ (splitRef "doc.md?x=1#sec").2.2) := by
  have h := c3_query_fragment_verbatim RefEl.a "doc.md?x=1#sec" "/repo/blog/post.md"
    "/repo/_site/blog/post/index.html" (by decide) (by decide) (by decide) (by decide)
  exact ⟨h.1, h.2.1 "doc.md?x=1#sec" (by decide)⟩

/-! ### Claim C4 -/

/-- C4: every reference attribute value that is protocol-relative or
absolute (http, https or a bare double slash), a mailto or tel URI, or a
pure in-page fragment beginning with a hash, is returned byte-identical,
leaving the attribute unchanged (in particular no decoding is attempted
and nothing can throw). -/
theorem c4_external_refs_untouched (el : RefEl) (raw sourceMdPath currentOutPath : String)
    (h : isExternalUrl raw = true ∨ isMailtoTel raw = true
      ∨ strStartsWith raw "#" = true) :
    rebaseAssetRef el raw sourceMdPath currentOutPath = some raw := by
  cases hex : isExternalUrl raw <;> cases hmt : isMailtoTel raw <;>
    cases hhs : strStartsWith raw "#" <;>
      simp_all [rebaseAssetRef, rewriteAttrValue]

/-- Witness instantiating C4 on an external https reference. -/
theorem c4_external_refs_untouched_witness :
    rebaseAssetRef RefEl.a "https://example.com/x.png" "/repo/a.md"
      "/repo/_site/a/index.html" = some "https://example.com/x.png" :=
  c4_external_refs_untouched RefEl.a "https://example.com/x.png" "/repo/a.md"
    "/repo/_site/a/index.html" (Or.inl (by decide))

/-! ### Claim C5 -/

/-- C5: for every href-carrying reference attribute not skipped by
classification, the path component is left exactly as authored — the
rewritten value is the reassembly of the authored path, query and fragment —
and when that reassembly is empty the current-directory token replaces it,
so the attribute value is never empty (the href branch performs no decoding
and cannot throw). -/
theorem c5_href_path_as_authored (el : RefEl) (raw sourceMdPath currentOutPath : String)
    (he : elUsesHref el = true)
    (h0 : raw ≠ "") (h1 : isExternalUrl raw = false) (h2 : isMailtoTel raw = false)
    (h3 : strStartsWith raw "#" = false) :
    rebaseAssetRef el raw sourceMdPath currentOutPath
      = some (if (splitRef raw).1 ++ (splitRef raw).2.1
            ++ (if (splitRef raw).2.2 = "" then "" else "#" ++ (splitRef raw).2.2) = ""
         then "."
         else (splitRef raw).1 ++ (splitRef raw).2.1
            ++ (if (splitRef raw).2.2 = "" then "" else "#" ++ (splitRef raw).2.2))
    ∧ rebaseAssetRef el raw sourceMdPath currentOutPath ≠ some "" := by
  rw [rebaseAssetRef, he, rewriteAttrValue_not_skipped true _ _ _ h0 h1 h2 h3]
  simp only [if_true, and_true]
  constructor
  · trivial
  · by_cases hv : (splitRef raw).1 ++ (splitRef raw).2.1
        ++ (if (splitRef raw).2.2 = "" then "" else "#" ++ (splitRef raw).2.2) = ""
    · rw [if_pos hv]
      intro hcontra
      simp only [Option.some.injEq] at hcontra
      exact absurd hcontra (by decide)
    · rw [if_neg hv]
      intro hcontra
      simp only [Option.some.injEq] at hcontra
      exact hv hcontra

/-- Witness instantiating C5 on a hyperlink to a sibling markdown file. -/
theorem c5_href_path_as_authored_witness :
    rebaseAssetRef RefEl.a "../other.md?x=1#sec" "/repo/blog/post.md"
        "/repo/_site/blog/post/index.html"
      = some (if (splitRef "../other.md?x=1#sec").1 ++ (splitRef "../other.md?x=1#sec").2.1
            ++ (if (splitRef "../other.md?x=1#sec").2.2 = "" then ""
                else "#" ++ (splitRef "../other.md?x=1#sec").2.2) = ""
         then "."
         else (splitRef "../other.md?x=1#sec").1 ++ (splitRef "../other.md?x=1#sec").2.1
            ++ (if (splitRef "../other.md?x=1#sec").2.2 = "" then ""
                else "#" ++ (splitRef "../other.md?x=1#sec").2.2))
    ∧ rebaseAssetRef RefEl.a "../other.md?x=1#sec" "/repo/blog/post.md"
        "/repo/_site/blog/post/index.html" ≠ some "" :=
  c5_href_path_as_authored RefEl.a "../other.md?x=1#sec" "/repo/blog/post.md"
    "/repo/_site/blog/post/index.html" (by decide) (by decide) (by decide) (by decide)
    (by decide)

/-! ### Heading-id lemmas (claim C6) -/

theorem decParse_append (xs : List Char) (c : Char) :
    decParse (xs ++ [c]) = decParse xs * 10 + (c.toNat - 48) := by
  rw [decParse, decParse, List.foldl_append]
  rfl

theorem digit_toNat (n : Nat) (h : n < 10) : (Char.ofNat (48 + n)).toNat = 48 + n := by
  interval_cases n <;> decide

theorem decParse_natToDecFuel (fuel : Nat) : ∀ n, n < fuel →
    decParse (natToDecFuel fuel n) = n := by
  induction fuel with
  | zero => intro n hn; omega
  | succ fuel ih =>
    intro n hn
    rw [natToDecFuel]
    by_cases h10 : n < 10
    · rw [if_pos h10]
      have hval := digit_toNat n h10
      have hsingle : decParse [Char.ofNat (48 + n)] = (Char.ofNat (48 + n)).toNat - 48 := by
        simp [decParse]
      rw [hsingle, hval]
      omega
    · rw [if_neg h10]
      rw [decParse_append]
      have hdivlt : n / 10 < n := Nat.div_lt_self (by omega) (by omega)
      rw [ih (n / 10) (by omega)]
      have hmod10 : n % 10 < 10 := Nat.mod_lt _ (by omega)
      rw [digit_toNat (n % 10) hmod10]
      omega

theorem natToDec_inj (a b : Nat) (h : natToDec a = natToDec b) : a = b := by
  have hd : natToDecFuel (a + 1) a = natToDecFuel (b + 1) b := congrArg String.data h
  have ha := decParse_natToDecFuel (a + 1) a (by omega)
  have hb := decParse_natToDecFuel (b + 1) b (by omega)
  rw [← ha, ← hb, hd]

theorem natToDec_data_len (n : Nat) : (natToDec n).data.length ≥ 1 := by
  rw [natToDec]
  cases h10 : natToDecFuel (n + 1) n with
  | nil =>
    have := decParse_natToDecFuel (n + 1) n (by omega)
    rw [h10] at this
    rw [show decParse [] = 0 from rfl] at this
    subst this
    simp [natToDecFuel] at h10
  | cons c cs => simp

theorem freshId_spec (base : String) (used : List String) (hb : base ≠ "") :
    freshId base used ∉ used ∧ freshId base used ≠ "" := by
  rw [freshId, if_neg hb]
  cases hf : (base :: (List.range (used.length + 1)).map
      (fun i => base ++ "-" ++ natToDec (i + 1))).find? (fun c => !used.contains c) with
  | some c =>
    have hp := List.find?_some hf
    have hmemc := List.mem_of_find?_eq_some hf
    constructor
    · exact fun hmem => (by simpa using hp : c ∉ used) hmem
    · intro hc
      rcases List.mem_cons.mp hmemc with h1 | h1
      · exact hb (h1 ▸ hc)
      · obtain ⟨i, _, heq⟩ := List.mem_map.mp h1
        have hlen := congrArg (fun s => s.data.length) (heq.trans hc)
        simp only [String.data_append] at hlen
        simp at hlen
  | none =>
    exfalso
    have hall := List.find?_eq_none.mp hf
    have hsub : ∀ c ∈ (base :: (List.range (used.length + 1)).map
        (fun i => base ++ "-" ++ natToDec (i + 1))), c ∈ used := by
      intro c hc
      have := hall c hc
      simpa using this
    have hbasemem : ∀ i : Nat, ¬ base ++ "-" ++ natToDec (i + 1) = base := by
      intro i heq
      have hlen := congrArg (fun s => s.data.length) heq
      simp only [String.data_append] at hlen
      simp at hlen
    have hinj : ∀ x ∈ List.range (used.length + 1), ∀ y ∈ List.range (used.length + 1),
        base ++ "-" ++ natToDec (x + 1) = base ++ "-" ++ natToDec (y + 1) → x = y := by
      intro x _ y _ heq
      have hd := congrArg String.data heq
      simp only [String.data_append, List.append_assoc] at hd
      have hcancel := List.append_cancel_left hd
      have hcancel2 := List.append_cancel_left hcancel
      have := natToDec_inj (x + 1) (y + 1) (String.ext hcancel2)
      omega
    have hnodup : (base :: (List.range (used.length + 1)).map
        (fun i => base ++ "-" ++ natToDec (i + 1))).Nodup := by
      rw [List.nodup_cons]
      constructor
      · intro hmem
        obtain ⟨i, _, heq⟩ := List.mem_map.mp hmem
        exact hbasemem i heq
      · exact List.Nodup.map_on hinj (List.nodup_range _)
    have hcard1 := List.toFinset_card_of_nodup hnodup
    have hsub2 : (base :: (List.range (used.length + 1)).map
        (fun i => base ++ "-" ++ natToDec (i + 1))).toFinset ⊆ used.toFinset := by
      intro x hx
      rw [List.mem_toFinset] at hx ⊢
      exact hsub x hx
    have hcard2 := Finset.card_le_card hsub2
    have hcard3 := List.toFinset_card_le used
    have hlen : (base :: (List.range (used.length + 1)).map
        (fun i => base ++ "-" ++ natToDec (i + 1))).length = used.length + 2 := by
      simp
    omega

theorem freshId_empty_base (used : List String) : freshId "" used = "" := rfl

theorem assignHeadingIdsGo_spec (ts : List String) : ∀ used : List String,
    (assignHeadingIdsGo used ts).reduceOption.Nodup
    ∧ ∀ x ∈ (assignHeadingIdsGo used ts).reduceOption, x ∉ used := by
  induction ts with
  | nil =>
    intro used
    simp [assignHeadingIdsGo]
  | cons t ts ih =>
    intro used
    rw [assignHeadingIdsGo]
    by_cases hid : freshId (slugify t) used = ""
    · rw [if_pos hid]
      simp only [List.reduceOption_cons_of_none]
      exact ih used
    · rw [if_neg hid]
      have hbase : slugify t ≠ "" := by
        intro hb
        exact hid (by rw [hb]; rfl)
      have hspec := freshId_spec (slugify t) used hbase
      obtain ⟨ihn, ihm⟩ := ih (freshId (slugify t) used :: used)
      simp only [List.reduceOption_cons_of_some]
      constructor
      · rw [List.nodup_cons]
        exact ⟨fun hmem => (ihm _ hmem) (by simp), ihn⟩
      · intro x hx
        rcases List.mem_cons.mp hx with h1 | h1
        · subst h1
          exact hspec.1
        · exact fun hxu => (ihm x h1) (List.mem_cons_of_mem _ hxu)

theorem assignHeadingIdsGo_some (ts : List String) : ∀ used : List String,
    ∀ pr ∈ ts.zip (assignHeadingIdsGo used ts), slugify pr.1 ≠ "" → pr.2.isSome = true := by
  induction ts with
  | nil =>
    intro used pr hpr
    simp at hpr
  | cons t ts ih =>
    intro used pr hpr hslug
    rw [assignHeadingIdsGo] at hpr
    by_cases hid : freshId (slugify t) used = ""
    · rw [if_pos hid] at hpr
      rw [List.zip_cons_cons] at hpr
      rcases List.mem_cons.mp hpr with h1 | h1
      · subst h1
        simp only at hslug
        exact absurd hid (freshId_spec (slugify t) used hslug).2
      · exact ih used pr h1 hslug
    · rw [if_neg hid] at hpr
      rw [List.zip_cons_cons] at hpr
      rcases List.mem_cons.mp hpr with h1 | h1
      · subst h1
        rfl
      · exact ih _ pr h1 hslug

/-! ### Claim C6 -/

/-- C6 counterexample: a heading whose title slugifies to the empty string
(here `!!!`) receives no identifier at all, so not every heading in a
fragment is given an identifier. -/
theorem c6_heading_ids_counterexample :
    slugify "!!!" = "" ∧ assignHeadingIds ["!!!"] = [none] := by
  constructor <;> decide

/-- C6 (amended): heading-id assignment gives every heading whose slugified
title is non-empty an identifier computed by `slugify`, appending an
incremented numeric suffix on collision (a heading whose slug is empty
receives no identifier); the identifiers assigned within one document are
pairwise distinct, and two headings both titled `Overview` receive
`overview` and `overview-1`. -/
theorem c6_heading_ids (texts : List String) :
    (assignHeadingIds texts).reduceOption.Nodup
    ∧ (∀ pr ∈ texts.zip (assignHeadingIds texts), slugify pr.1 ≠ "" → pr.2.isSome = true)
    ∧ assignHeadingIds ["Overview", "Overview"] = [some "overview", some "overview-1"] := by
  refine ⟨(assignHeadingIdsGo_spec texts []).1, ?_, by decide⟩
  exact assignHeadingIdsGo_some texts []

/-- Witness instantiating C6 at a concrete two-heading document. -/
theorem c6_heading_ids_witness :
    (assignHeadingIds ["Overview", "Overview"]).reduceOption.Nodup
    ∧ (("Overview", some "overview") : String × Option String).2.isSome = true := by
  have h := c6_heading_ids ["Overview", "Overview"]
  refine ⟨h.1, ?_⟩
  exact h.2.1 ("Overview", some "overview") (by decide) (by decide)

/-! ### Claim C7 -/

/-- C8 counterexample: two different malformed navigation entries — a number
and a boolean — abort with the identical generic message, so that message
does not identify which entry caused the abort. -/
theorem c8_nav_validation_counterexample :
    buildNavItems [JVal.num 3] "README.md"
      = Except.error "config.nav items must be objects like \x7b Title: \"href\" \x7d"
    ∧ buildNavItems [JVal.jbool true] "README.md"
      = Except.error "config.nav items must be objects like \x7b Title: \"href\" \x7d" :=
  ⟨rfl, rfl⟩

/-- C8 (amended): navigation building fails fatally whenever any entry is
malformed and never silently skips an entry (a successful build maps every
entry); errors raised for an entry with a usable title identify it by that
title, while entries that are not objects (or lack a title) produce a
generic message. -/
theorem c8_nav_validation (nav : List JVal) (home : String) :
    ((∃ e ∈ nav, ∃ msg, navItemResult home e = Except.error msg) →
      ∃ msg, buildNavItems nav home = Except.error msg)
    ∧ (∀ items, buildNavItems nav home = Except.ok items → items.length = nav.length)
    ∧ (∀ title href, jsTrim title ≠ "" → jsTrim href ≠ "" →
        isExternalUrl href = false → isMailtoTel href = false → isMdHref href = false →
        ∃ x y, navItemResult home (JVal.obj [(title, JVal.str href)])
          = Except.error (x ++ title ++ y)) := by
  refine ⟨?_, ?_, ?_⟩
  · induction nav with
    | nil =>
      rintro ⟨e, he, -⟩
      simp at he
    | cons item rest ih =>
      rintro ⟨e, he, msg, herr⟩
      rw [buildNavItems]
      rcases List.mem_cons.mp he with h1 | h1
      · subst h1
        rw [herr]
        exact ⟨msg, rfl⟩
      · cases hitem : navItemResult home item with
        | error e2 => exact ⟨e2, rfl⟩
        | ok ni =>
          obtain ⟨msg2, hrec⟩ := ih ⟨e, h1, msg, herr⟩
          rw [hrec]
          exact ⟨msg2, rfl⟩
  · induction nav with
    | nil =>
      intro items h
      cases h
      rfl
    | cons item rest ih =>
      intro items h
      rw [buildNavItems] at h
      cases hitem : navItemResult home item with
      | error e2 =>
        rw [hitem] at h
        cases h
      | ok ni =>
        rw [hitem] at h
        cases hrec : buildNavItems rest home with
        | error e2 =>
          rw [hrec] at h
          cases h
        | ok tl =>
          rw [hrec] at h
          cases h
          simp [ih tl hrec]
  · intro title href htitle hhref hext hmt hmd
    refine ⟨"config.nav item '",
      "' has unsupported href '" ++ href ++ "'. Use a .md file path or an external URL.", ?_⟩
    simp [navItemResult, jsFirstKey, getField, jsTruthy, jsTypeofObject,
      htitle, hhref, hext, hmt, hmd, String.append_assoc]

/-- Witness instantiating the amended C8: one malformed entry aborts the
whole build, and a bad target is reported with the entry's title. -/
theorem c8_nav_validation_witness :
    (∃ msg, buildNavItems [JVal.num 3] "README.md" = Except.error msg)
    ∧ (∃ x y, navItemResult "README.md" (JVal.obj [("About", JVal.str "about.txt")])
        = Except.error (x ++ "About" ++ y)) := by
  have h := c8_nav_validation [JVal.num 3] "README.md"
  have h2 := c8_nav_validation [] "README.md"
  refine ⟨h.1 ⟨JVal.num 3, by simp, ?_⟩, ?_⟩
  · exact ⟨"config.nav items must be objects like \x7b Title: \"href\" \x7d", rfl⟩
  · exact h2.2.2 "About" "about.txt" (by decide) (by decide) (by decide) (by decide)
      (by decide)

/-! ### Claim C9 -/

/-- C9: rendering navigation for a page substitutes, in declaration order,
one anchor per entry into the links placeholder; every internal entry's
href (and the home link's) is the relative path from the current page's
output directory with the directory-index suffix stripped — an entry
resolving to `about/index.html` rendered from `blog/post/index.html` yields
`../../about` — and external entries are marked to open in a new browsing
context. -/
theorem c9_nav_render (navItems : List NavItem)
    (currentOutPath siteTitle homeOutPath navTemplate : String) :
    buildNavHtml navItems currentOutPath siteTitle homeOutPath navTemplate
      = replaceFirst (replaceFirst navTemplate "\x7b\x7bTITLE_HTML\x7d\x7d"
          ("<a href=\"" ++ navHrefFrom (posixDirname currentOutPath) homeOutPath
            ++ "\" class=\"site-title\">" ++ escapeHtml siteTitle ++ "</a>"))
          "\x7b\x7bLINKS_HTML\x7d\x7d"
          (String.intercalate " "
            (navItems.map (renderNavLink (posixDirname currentOutPath))))
    ∧ (∀ mdPath title outPath,
        renderNavLink (posixDirname currentOutPath) (NavItem.internal mdPath title outPath)
          = "<a href=\"" ++ navHrefFrom (posixDirname currentOutPath) outPath ++ "\">"
            ++ escapeHtml title ++ "</a>")
    ∧ (∀ href title,
        renderNavLink (posixDirname currentOutPath) (NavItem.external href title)
          = "<a href=\"" ++ escapeHtml href
            ++ "\" target=\"_blank\" rel=\"noopener noreferrer\">" ++ escapeHtml title
            ++ "</a>")
    ∧ navHrefFrom (posixDirname "/repo/_site/blog/post/index.html")
        "/repo/_site/about/index.html" = "../../about" := by
  refine ⟨rfl, fun _ _ _ => rfl, fun _ _ => rfl, by decide⟩

/-! ### Claim C10 -/

/-- C10 counterexample: a configuration in which `site_title` is present but
empty aborts — so config loading does not abort only on absent fields. -/
theorem c10_config_counterexample :
    getField (JVal.obj [("site_title", JVal.str ""), ("home_md", JVal.str "README.md")])
        "site_title" = JVal.str ""
    ∧ loadConfig (JVal.obj [("site_title", JVal.str ""), ("home_md", JVal.str "README.md")])
        = Except.error "Missing site_title in config" :=
  ⟨rfl, rfl⟩

/-- C10 (amended): config loading aborts exactly when `site_title` or
`home_md` is absent or falsy (absent, null, or the empty string); a
configuration whose navigation list is missing or not an array is accepted
with the navigation defaulted to the empty list rather than treated as a
fatal missing-field error. -/
theorem c10_config_validation (cfg : JVal) :
    ((∃ msg, loadConfig cfg = Except.error msg)
      ↔ (jsTruthy (getField cfg "site_title") = false
         ∨ jsTruthy (getField cfg "home_md") = false))
    ∧ (jsTruthy (getField cfg "site_title") = true →
       jsTruthy (getField cfg "home_md") = true →
       loadConfig cfg = Except.ok (getField cfg "site_title", getField cfg "home_md",
         match getField cfg "nav" with
         | JVal.arr l => l
         | _ => [])) := by
  constructor
  · constructor
    · rintro ⟨msg, hmsg⟩
      rw [loadConfig] at hmsg
      by_cases h1 : jsTruthy (getField cfg "site_title") = true
      · rw [if_neg (by simp [h1])] at hmsg
        by_cases h2 : jsTruthy (getField cfg "home_md") = true
        · rw [if_neg (by simp [h2])] at hmsg
          cases hmsg
        · right
          simpa using h2
      · left
        simpa using h1
    · intro h
      rw [loadConfig]
      rcases h with h1 | h1
      · rw [if_pos (by simp [h1])]
        exact ⟨_, rfl⟩
      · by_cases h2 : jsTruthy (getField cfg "site_title") = true
        · rw [if_neg (by simp [h2]), if_pos (by simp [h1])]
          exact ⟨_, rfl⟩
        · rw [if_pos (by simp at h2 ⊢; exact h2)]
          exact ⟨_, rfl⟩
  · intro h1 h2
    rw [loadConfig, if_neg (by simp [h1]), if_neg (by simp [h2])]

/-- Witness instantiating the amended C10 on a configuration whose `nav`
field is a plain string: loading succeeds with an empty navigation list. -/
theorem c10_config_validation_witness :
    loadConfig (JVal.obj [("site_title", JVal.str "G-CLef"),
        ("home_md", JVal.str "README.md"), ("nav", JVal.str "oops")])
      = Except.ok (JVal.str "G-CLef", JVal.str "README.md", ([] : List JVal)) := by
  have h := c10_config_validation (JVal.obj [("site_title", JVal.str "G-CLef"),
    ("home_md", JVal.str "README.md"), ("nav", JVal.str "oops")])
  exact h.2 (by decide) (by decide)

end Render
